import Mathlib

/-!
ImplicitBlend: skeleton merge and mesh refresh.

A shallow embedding of `src/src/maya/implicit_blend.cpp`:

* `ImplicitBlend::update_skeleton` (lines 170-291), split along its own
  comments into the input gathering (`gatherSurfaces`, lines 178-205), the
  two inner loops over a sub-skeleton (`addBones`, lines 247-253, and
  `addParents`, lines 255-276), one pass of the outer loop (`mergeStep`,
  lines 239-278), the outer loop (`mergeLoop`, lines 237-279) and the
  function itself (`update_skeleton`);
* `ImplicitBlend::load_mesh_geometry` (lines 154-168) and
  `ImplicitBlend::get_mesh_geometry` (lines 144-151).

Conventions.  `int` values are `Int`; container sizes stay far below `2^31`,
so the casts `(int) bones.size()` are exact.  A `std::vector` is a `List`; an
access outside its bounds, the dereference of a null `shared_ptr` and a
throwing `std::map::at` are faults (`Except.error`).  Host accessors of the
Maya API hand back an `MStatus`; each of these is an explicit field of the
host value the function reads, and the early returns on them are kept.
-/

namespace ImplicitBlend

/-! ## Host and data model -/

/-- Status codes of the host API (`MStatus`). -/
inductive MStatus where
  | kSuccess
  | kFailure
  | kInvalidParameter
  | kUnknownParameter
  deriving DecidableEq, Repr

/-- Ways the C++ can leave defined behaviour. -/
inductive Fault where
  | nullDereference
  | indexOutOfRange
  | keyNotFound
  deriving DecidableEq, Repr

/-- A bone as seen through `shared_ptr<const Bone>`: the value of
`get_bone_id()` and the identity of the object pointed to. -/
structure Bone where
  id : Int
  obj : Nat
  deriving DecidableEq, Repr

/-- Modelled from the spec: the class `Skeleton` (skeleton.hpp is not part of
the sources) as the three accessors `update_skeleton` calls on a sub-skeleton,
together with the address of the object, which is what `shared_ptr` equality
compares.  `bone_ids` is `get_bone_ids()`, `bone` is `get_bone(id)` and
`parentId` is `parent(id)` with `-1` for a root. -/
structure Skeleton where
  addr : Nat
  bone_ids : List Int
  bone : Int → Bone
  parentId : Int → Int

/-- Modelled from the spec: the skeleton object made by
`new Skeleton(bones, parents)`, recorded as the two constructor arguments. -/
structure BuiltSkeleton where
  bones : List Bone
  parents : List Int
  deriving DecidableEq, Repr

/-- Mesh vertex; coordinates are kept abstract. -/
structure Vertex where
  tag : Nat
  deriving DecidableEq, Repr

/-- Modelled from the spec: `MeshGeom` as its vertex list and its triangle
index list.  `MeshGeom()` is the empty value. -/
structure MeshGeom where
  vertices : List Vertex
  triangles : List (Nat × Nat × Nat)
  deriving DecidableEq, Repr

/-- The value `MeshGeom()`. -/
def MeshGeom.empty : MeshGeom := ⟨[], []⟩

/-- The members of the node that the two functions read and write, and one
ghost member: `rebuilds` counts how often `update_skeleton` has run its merge
to the end and passed lines 281-288, where the held skeleton is dropped or
replaced by a `new Skeleton`.  An object made at line 288 is identified by the
value of this counter, which is what tells a held skeleton from a later one
with the same bones and parents. -/
structure State where
  skeleton : Option BuiltSkeleton
  lastImplicitBones : List (Option Skeleton)
  lastParents : List Int
  meshGeometry : MeshGeom
  rebuilds : Nat

/-- Identity of the held skeleton object: the rebuild that made it, or `none`
for a null pointer. -/
def State.skeletonIdentity (s : State) : Option Nat :=
  s.skeleton.map (fun _ => s.rebuilds)

/-- A freshly constructed node. -/
def State.initial : State := ⟨none, [], [], MeshGeom.empty, 0⟩

/-- One physical element of the `surfaces` array plug with the status of every
host accessor called on it.  `pluginData` is `asPluginData()` (`none` for a
null pointer) followed by `getSkeleton()` (inner `none` for a null skeleton). -/
structure SurfaceElement where
  jumpToElement : MStatus
  elementIndex : MStatus
  logicalIndex : Nat
  implicitValue : MStatus
  pluginData : Option (Option Skeleton)
  parentValue : MStatus
  readHandle : MStatus
  parentIdx : Int

/-- What the host answers during one call of `update_skeleton`. -/
structure Host where
  surfaces : MStatus
  elements : List SurfaceElement
  dagPath : MStatus
  partialPathName : MStatus

/-! ## Vectors -/

/-- Read `v[i]` for an `int` index. -/
def vecAt {α : Type} (v : List α) (i : Int) : Option α :=
  if 0 ≤ i then v[i.toNat]? else none

/-- Write `v[i] = a` for an `int` index known to be in range. -/
def vecSet {α : Type} (v : List α) (i : Int) (a : α) : List α :=
  if 0 ≤ i then v.set i.toNat a else v

/-- The member `std::vector::resize(n)` with value-initialised new entries. -/
def resize {α : Type} (v : List α) (n : Nat) (fill : α) : List α :=
  (v ++ List.replicate (n - v.length) fill).take n

/-- Equality of two `shared_ptr<const Skeleton>`: same address, or both null. -/
def ptrEq : Option Skeleton → Option Skeleton → Bool
  | none, none => true
  | some a, some b => a.addr == b.addr
  | _, _ => false

/-- Equality of two vectors of skeleton pointers. -/
def vecPtrEq : List (Option Skeleton) → List (Option Skeleton) → Bool
  | [], [] => true
  | a :: as, b :: bs => ptrEq a b && vecPtrEq as bs
  | _, _ => false

/-! ## Input gathering (lines 178-205) -/

/-- Result of reading the `surfaces` plug. -/
inductive Gathered where
  | fault (f : Fault)
  | failed (status : MStatus)
  | inputs (implicitBones : List (Option Skeleton)) (surfaceParents : List Int)

/-- The loop of lines 181-205 over the physical elements. -/
def gatherSurfaces : List SurfaceElement → List (Option Skeleton) → List Int → Gathered
  | [], implicitBones, surfaceParents => .inputs implicitBones surfaceParents
  | e :: es, implicitBones, surfaceParents =>
    if e.jumpToElement ≠ .kSuccess then .failed e.jumpToElement
    else if e.elementIndex ≠ .kSuccess then .failed e.elementIndex
    else
      let implicitBones1 :=
        resize implicitBones (max (e.logicalIndex + 1) implicitBones.length) none
      let surfaceParents1 :=
        resize surfaceParents (max (e.logicalIndex + 1) surfaceParents.length) 0
      if e.implicitValue ≠ .kSuccess then .failed e.implicitValue
      else
        match e.pluginData with
        | none => .fault .nullDereference
        | some skel =>
          if e.parentValue ≠ .kSuccess then .failed e.parentValue
          else if e.readHandle ≠ .kSuccess then .failed e.readHandle
          else
            gatherSurfaces es (implicitBones1.set e.logicalIndex skel)
              (surfaceParents1.set e.logicalIndex e.parentIdx)

/-- Lines 175-205: fetch the array handle, then gather. -/
def readSurfaces (host : Host) : Gathered :=
  if host.surfaces ≠ .kSuccess then .failed host.surfaces
  else gatherSurfaces host.elements [] []

/-! ## Merge loop (lines 232-279) -/

/-- The local `map<Bone::Id,int> boneIdToIdx`. -/
abbrev BoneIdMap := Int → Option Int

/-- The statement `boneIdToIdx[k] = v`. -/
def BoneIdMap.set (m : BoneIdMap) (k v : Int) : BoneIdMap :=
  fun x => if x = k then some v else m x

/-- Loop variables of the outer loop. -/
structure MergeState where
  bones : List Bone
  parents : List Int
  firstBonePerSkeleton : List Int

/-- First inner loop (lines 247-253): returns `bones`, `firstBoneIdx` and
`boneIdToIdx` after the remaining bone ids. -/
def addBones (sub : Skeleton) :
    List Int → List Bone → Int → BoneIdMap → List Bone × Int × BoneIdMap
  | [], bones, firstBoneIdx, m => (bones, firstBoneIdx, m)
  | boneId :: rest, bones, _, m =>
    let bone := sub.bone boneId
    addBones sub rest (bones ++ [bone]) (bones.length : Int)
      (m.set bone.id (bones.length : Int))

/-- Second inner loop (lines 255-276): returns `parents` after the remaining
bone ids. -/
def addParents (sub : Skeleton) (surfaceParentIdx : Int) (m : BoneIdMap)
    (firstBonePerSkeleton : List Int) : List Int → List Int → Except Fault (List Int)
  | [], parents => .ok parents
  | boneId :: rest, parents =>
    let parentBoneId := sub.parentId boneId
    if parentBoneId ≠ -1 then
      match m parentBoneId with
      | none => .error .keyNotFound
      | some parentBoneIdx =>
        addParents sub surfaceParentIdx m firstBonePerSkeleton rest (parents ++ [parentBoneIdx])
    else if surfaceParentIdx ≠ -1 then
      match vecAt firstBonePerSkeleton surfaceParentIdx with
      | none => .error .indexOutOfRange
      | some parentBoneIdx =>
        addParents sub surfaceParentIdx m firstBonePerSkeleton rest (parents ++ [parentBoneIdx])
    else
      addParents sub surfaceParentIdx m firstBonePerSkeleton rest (parents ++ [-1])

/-- One pass of the outer loop (lines 239-278) for `idx = hierarchyOrder[i]`. -/
def mergeStep (implicitBones : List (Option Skeleton)) (surfaceParents : List Int)
    (st : MergeState) (idx : Int) : Except Fault MergeState :=
  match vecAt implicitBones idx with
  | none => .error .indexOutOfRange
  | some subSkeleton =>
    match vecAt surfaceParents idx with
    | none => .error .indexOutOfRange
    | some surfaceParentIdx =>
      match subSkeleton with
      | none => .error .nullDereference
      | some sub =>
        let r := addBones sub sub.bone_ids st.bones (-1) (fun _ => none)
        match addParents sub surfaceParentIdx r.2.2 st.firstBonePerSkeleton
            sub.bone_ids st.parents with
        | .error f => .error f
        | .ok parents =>
          .ok ⟨r.1, parents, vecSet st.firstBonePerSkeleton idx r.2.1⟩

/-- The outer loop (lines 237-279) over the remaining hierarchy order. -/
def mergeLoop (implicitBones : List (Option Skeleton)) (surfaceParents : List Int) :
    List Int → MergeState → Except Fault MergeState
  | [], st => .ok st
  | idx :: rest, st =>
    match mergeStep implicitBones surfaceParents st idx with
    | .error f => .error f
    | .ok st1 => mergeLoop implicitBones surfaceParents rest st1

/-- Loop variables at line 236. -/
def MergeState.start (surfaceParents : List Int) : MergeState :=
  ⟨[], [], List.replicate surfaceParents.length (-1)⟩

/-- Lines 281-288: no skeleton for an empty bone list, a new one otherwise. -/
def resetSkeleton (bones : List Bone) (parents : List Int) : Option BuiltSkeleton :=
  if bones.length = 0 then none else some ⟨bones, parents⟩

/-! ## The two node functions -/

/-- The function `ImplicitBlend::update_skeleton`.  `resolver` stands for
`MiscUtils::getHierarchyOrder`, whose body is not part of the sources: `none`
is its `false` result, `some order` the order it writes on `true`. -/
def update_skeleton (resolver : List Int → Option (List Int)) (host : Host) (s : State) :
    Except Fault (MStatus × State) :=
  match readSurfaces host with
  | .fault f => .error f
  | .failed status => .ok (status, s)
  | .inputs implicitBones surfaceParents =>
    if vecPtrEq implicitBones s.lastImplicitBones && surfaceParents == s.lastParents then
      .ok (.kSuccess, s)
    else
      let s1 : State :=
        { s with lastImplicitBones := implicitBones, lastParents := surfaceParents }
      match resolver surfaceParents with
      | none =>
        if host.dagPath ≠ .kSuccess then .ok (host.dagPath, s1)
        else if host.partialPathName ≠ .kSuccess then .ok (host.partialPathName, s1)
        else .ok (.kSuccess, s1)
      | some hierarchyOrder =>
        match mergeLoop implicitBones surfaceParents hierarchyOrder
            (MergeState.start surfaceParents) with
        | .error f => .error f
        | .ok st =>
          .ok (.kSuccess, { s1 with skeleton := resetSkeleton st.bones st.parents,
                                    rebuilds := s1.rebuilds + 1 })

/-- The function `ImplicitBlend::load_mesh_geometry`.  `worldImplicit` is the
status of pulling the `worldImplicit` plug and `s` the node once that pull has
returned; `compute_surface` stands for `MarchingCubes::compute_surface`. -/
def load_mesh_geometry (compute_surface : MeshGeom → BuiltSkeleton → MeshGeom)
    (worldImplicit : MStatus) (s : State) : MStatus × State :=
  if worldImplicit ≠ .kSuccess then (worldImplicit, s)
  else
    match s.skeleton with
    | none => (.kSuccess, s)
    | some skel =>
      (.kSuccess, { s with meshGeometry := compute_surface MeshGeom.empty skel })

/-- The function `ImplicitBlend::get_mesh_geometry`: pulling
`meshGeometryUpdateAttr` runs `load_mesh_geometry`, whose status is dropped,
and the member `meshGeometry` is returned. -/
def get_mesh_geometry (compute_surface : MeshGeom → BuiltSkeleton → MeshGeom)
    (worldImplicit : MStatus) (s : State) : MeshGeom × State :=
  let r := load_mesh_geometry compute_surface worldImplicit s
  (r.2.meshGeometry, r.2)

/-! ## Hierarchy order resolver -/

/-- Modelled from the spec: one depth-first visit of the hierarchy order
resolver.  `out` holds the surfaces already placed, `visiting` the surfaces on
the current path; meeting one of the latter again is a cycle.  The counter
bounds the path length and is never exhausted when it starts above the number
of surfaces. -/
def placeSurface (parent : List Int) : Nat → List Int → Int → List Int → Option (List Int)
  | 0, _, _, _ => none
  | fuel + 1, visiting, i, out =>
    if i ∈ out then some out
    else if i ∈ visiting then none
    else
      match vecAt parent i with
      | none => none
      | some p =>
        if p = -1 then some (out ++ [i])
        else
          match placeSurface parent fuel (i :: visiting) p out with
          | none => none
          | some out1 => some (out1 ++ [i])

/-- Visit the surfaces `i, i+1, ...` in turn. -/
def placeAll (parent : List Int) : List Nat → List Int → Option (List Int)
  | [], out => some out
  | i :: rest, out =>
    match placeSurface parent (parent.length + 1) [] (i : Int) out with
    | none => none
    | some out1 => placeAll parent rest out1

/-- Modelled from the spec: `MiscUtils::getHierarchyOrder` (misc_utils is not
part of the sources), "a permutation of indices such that every index appears
after its parent, or a failure signaling a cycle", found by depth-first
traversal from each index in increasing order. -/
def getHierarchyOrder (parent : List Int) : Option (List Int) :=
  placeAll parent (List.range parent.length) []

/-! ## Reachable node states -/

/-- Node states reachable from a fresh node by calls of `update_skeleton` that
return to the caller, whatever status they return. -/
inductive Reachable (resolver : List Int → Option (List Int)) : State → Prop where
  | initial : Reachable resolver State.initial
  | step {s s1 : State} {host : Host} {status : MStatus} :
      Reachable resolver s →
      update_skeleton resolver host s = .ok (status, s1) →
      Reachable resolver s1

/-! ## Specification predicates -/

/-- The ids of the bones of a sub-skeleton, in enumeration order. -/
def Skeleton.idList (sub : Skeleton) : List Int :=
  sub.bone_ids.map (fun k => (sub.bone k).id)

/-- What line 257-275 pushes for the bone id `k`: the index `v`. -/
def ParentRel (sub : Skeleton) (spi : Int) (m : BoneIdMap) (first : List Int)
    (k v : Int) : Prop :=
  (sub.parentId k ≠ -1 ∧ m (sub.parentId k) = some v) ∨
  (sub.parentId k = -1 ∧ spi ≠ -1 ∧ vecAt first spi = some v) ∨
  (sub.parentId k = -1 ∧ spi = -1 ∧ v = -1)

/-- Bone ids are unique within one skeleton. -/
def Skeleton.UniqueIds (sub : Skeleton) : Prop := sub.idList.Nodup

/-- The bone ids are enumerated with parents before children: the parent id of
every non-root entry is the id of an earlier entry. -/
def Skeleton.ParentsFirst (sub : Skeleton) : Prop :=
  ∀ j, j < sub.bone_ids.length →
    sub.parentId (sub.bone_ids.getD j 0) = -1 ∨
      ∃ i, i < j ∧ sub.idList[i]? = some (sub.parentId (sub.bone_ids.getD j 0))

instance (sub : Skeleton) : Decidable sub.UniqueIds := by
  unfold Skeleton.UniqueIds
  infer_instance

instance (sub : Skeleton) : Decidable sub.ParentsFirst := by
  unfold Skeleton.ParentsFirst
  infer_instance

/-- Invariant of the outer loop: one parent per bone, every recorded first-bone
index and every parent is `-1` or an earlier position. -/
def MergeInv (st : MergeState) : Prop :=
  st.parents.length = st.bones.length ∧
  (∀ v ∈ st.firstBonePerSkeleton, v = -1 ∨ (0 ≤ v ∧ v < (st.bones.length : Int))) ∧
  (∀ (p : Nat) (v : Int), st.parents[p]? = some v → v = -1 ∨ (0 ≤ v ∧ v < (p : Int)))

/-- The bones the surface `idx` contributes: those of its sub-skeleton in
enumeration order. -/
def blockBones (ibs : List (Option Skeleton)) (idx : Int) : List Bone :=
  match vecAt ibs idx with
  | some (some sub) => sub.bone_ids.map sub.bone
  | _ => []

/-- Every non-root bone of the skeleton has its parent in the same skeleton. -/
def Skeleton.Closed (sub : Skeleton) : Prop :=
  ∀ k ∈ sub.bone_ids, sub.parentId k = -1 ∨ sub.parentId k ∈ sub.idList

instance (sub : Skeleton) : Decidable sub.Closed := by
  unfold Skeleton.Closed
  infer_instance

/-- Hypotheses under which the pass for surface `idx` stays within defined
behaviour: the index is in range, its sub-skeleton is not null and is closed,
and its parent surface is `-1` or an index of the vectors. -/
def SurfaceOk (ibs : List (Option Skeleton)) (sps : List Int) (idx : Int) : Prop :=
  ∃ sub spi, vecAt ibs idx = some (some sub) ∧ vecAt sps idx = some spi ∧
    (spi = -1 ∨ (0 ≤ spi ∧ spi < (sps.length : Int))) ∧ sub.Closed

/-! ## Example data -/

/-- A sub-skeleton at address `a` whose entries are `(bone id, parent id)`. -/
def mkSkel (a : Nat) (joints : List (Int × Int)) : Skeleton :=
  ⟨a, joints.map (fun j => j.1), fun k => ⟨k, k.toNat⟩,
    fun k => (joints.lookup k).getD (-1)⟩

/-- A surface element every host accessor of which succeeds. -/
def elem (logicalIndex : Nat) (skel : Option Skeleton) (parentIdx : Int) : SurfaceElement :=
  ⟨.kSuccess, .kSuccess, logicalIndex, .kSuccess, some skel, .kSuccess, .kSuccess, parentIdx⟩

/-- A host all of whose own accessors succeed. -/
def hostOf (es : List SurfaceElement) : Host := ⟨.kSuccess, es, .kSuccess, .kSuccess⟩

/-- Surface A: two bones, root 10 and its child 11. -/
def skelA : Skeleton := mkSkel 100 [(10, -1), (11, 10)]

/-- Surface B: one bone. -/
def skelB : Skeleton := mkSkel 101 [(20, -1)]

/-- Surface C: one bone. -/
def skelC : Skeleton := mkSkel 102 [(30, -1)]

/-- The surfaces `[A, B, C]` with `surfaceParent = [none, 0, 1]`. -/
def hostABC : Host :=
  hostOf [elem 0 (some skelA) (-1), elem 1 (some skelB) 0, elem 2 (some skelC) 1]

/-- The surfaces `[A, B]` with `surfaceParent = [1, 0]`. -/
def hostCycle : Host := hostOf [elem 0 (some skelA) 1, elem 1 (some skelB) 0]

/-- A host that answers like `hostCycle` but cannot resolve the DAG path of the node. -/
def hostCycleNoPath : Host := { hostCycle with dagPath := .kFailure }

/-- The node after a successful merge of the surfaces `[A, B, C]`. -/
def stateABC : State :=
  { State.initial with
    lastImplicitBones := [some skelA, some skelB, some skelC],
    lastParents := [-1, 0, 1],
    rebuilds := 1,
    skeleton := some ⟨[⟨10, 10⟩, ⟨11, 11⟩, ⟨20, 20⟩, ⟨30, 30⟩], [-1, 0, 1, 2]⟩ }

/-- Surface P: root 1 and its child 2. -/
def skelP : Skeleton := mkSkel 200 [(1, -1), (2, 1)]

/-- Surface Q: another skeleton using the same bone ids 1 and 2. -/
def skelQ : Skeleton := mkSkel 201 [(1, -1), (2, 1)]

/-- The surfaces `[P, Q]`, Q attached to P. -/
def hostPQ : Host := hostOf [elem 0 (some skelP) (-1), elem 1 (some skelQ) 0]

/-- The surfaces `[A, null]`: the second plug carries a null skeleton, as an
upstream node without bones publishes. -/
def hostNull : Host := hostOf [elem 0 (some skelA) (-1), elem 1 none 0]

/-- One surface whose plug carries a null skeleton. -/
def hostAllNull : Host := hostOf [elem 0 none (-1)]

/-- A single element supplied at logical index 1 with parent `-1`. -/
def hostSparse : Host := hostOf [elem 1 (some skelB) (-1)]

/-- Geometry left from an earlier polygonization: one triangle. -/
def staleMesh : MeshGeom := ⟨[⟨0⟩, ⟨1⟩, ⟨2⟩], [(0, 1, 2)]⟩

/-- A node whose skeleton is null while its mesh is `staleMesh`. -/
def staleState : State := ⟨none, [], [], staleMesh, 2⟩

/-- The skeleton built from the surfaces `[A, B, C]`. -/
def builtABC : BuiltSkeleton := ⟨[⟨10, 10⟩, ⟨11, 11⟩, ⟨20, 20⟩, ⟨30, 30⟩], [-1, 0, 1, 2]⟩

/-! ## Auxiliary lemmas -/

theorem ptrEq_self (a : Option Skeleton) : ptrEq a a = true := by
  cases a <;> simp [ptrEq]

theorem vecPtrEq_self (l : List (Option Skeleton)) : vecPtrEq l l = true := by
  induction l with
  | nil => rfl
  | cons a l ih => simp [vecPtrEq, ptrEq_self, ih]

theorem update_skeleton_unchanged (resolver : List Int → Option (List Int)) (host : Host)
    (s : State) (ibs : List (Option Skeleton)) (sps : List Int)
    (hread : readSurfaces host = .inputs ibs sps)
    (hsame : (vecPtrEq ibs s.lastImplicitBones && sps == s.lastParents) = true) :
    update_skeleton resolver host s = .ok (.kSuccess, s) := by
  simp only [update_skeleton, hread, hsame, if_true]

theorem update_skeleton_changed (resolver : List Int → Option (List Int)) (host : Host)
    (s : State) (ibs : List (Option Skeleton)) (sps : List Int)
    (hread : readSurfaces host = .inputs ibs sps)
    (hchg : (vecPtrEq ibs s.lastImplicitBones && sps == s.lastParents) = false) :
    update_skeleton resolver host s =
      match resolver sps with
      | none =>
        if host.dagPath ≠ .kSuccess then
          .ok (host.dagPath, { s with lastImplicitBones := ibs, lastParents := sps })
        else if host.partialPathName ≠ .kSuccess then
          .ok (host.partialPathName, { s with lastImplicitBones := ibs, lastParents := sps })
        else .ok (.kSuccess, { s with lastImplicitBones := ibs, lastParents := sps })
      | some hierarchyOrder =>
        match mergeLoop ibs sps hierarchyOrder (MergeState.start sps) with
        | .error f => .error f
        | .ok st =>
          .ok (.kSuccess, { s with lastImplicitBones := ibs, lastParents := sps,
                                   skeleton := resetSkeleton st.bones st.parents,
                                   rebuilds := s.rebuilds + 1 }) := by
  simp only [update_skeleton, hread, hchg]
  rfl

theorem readSurfaces_hostABC :
    readSurfaces hostABC = .inputs [some skelA, some skelB, some skelC] [-1, 0, 1] := rfl

theorem readSurfaces_hostCycle :
    readSurfaces hostCycle = .inputs [some skelA, some skelB] [1, 0] := rfl

theorem readSurfaces_hostCycleNoPath :
    readSurfaces hostCycleNoPath = .inputs [some skelA, some skelB] [1, 0] := rfl

theorem getHierarchyOrder_cycle : getHierarchyOrder [1, 0] = none := by decide

theorem getHierarchyOrder_chain : getHierarchyOrder [-1, 0, 1] = some [0, 1, 2] := by decide

theorem addBones_bones (sub : Skeleton) (ids : List Int) (bones : List Bone) (f : Int)
    (m : BoneIdMap) : (addBones sub ids bones f m).1 = bones ++ ids.map sub.bone := by
  induction ids generalizing bones f m with
  | nil => simp [addBones]
  | cons x rest ih => simp [addBones, ih]

theorem addBones_first (sub : Skeleton) (ids : List Int) (bones : List Bone) (f : Int)
    (m : BoneIdMap) :
    (addBones sub ids bones f m).2.1 =
      if ids = [] then f else (bones.length : Int) + (ids.length : Int) - 1 := by
  induction ids generalizing bones f m with
  | nil => simp [addBones]
  | cons x rest ih =>
    simp only [addBones, ih]
    by_cases hr : rest = []
    · subst hr; simp
    · simp [hr]; omega

theorem addBones_map (sub : Skeleton) (ids : List Int) (bones : List Bone) (f : Int)
    (m : BoneIdMap) (k v : Int)
    (h : (addBones sub ids bones f m).2.2 k = some v) :
    m k = some v ∨
      ∃ i, i < ids.length ∧ (ids.map (fun x => (sub.bone x).id))[i]? = some k ∧
        v = (bones.length : Int) + (i : Int) := by
  induction ids generalizing bones f m with
  | nil => left; simpa [addBones] using h
  | cons x rest ih =>
    simp only [addBones] at h
    rcases ih _ _ _ h with h1 | ⟨i, hi, hk, hv⟩
    · unfold BoneIdMap.set at h1
      by_cases hkx : k = (sub.bone x).id
      · right
        rw [if_pos hkx] at h1
        refine ⟨0, by simp, by simp [hkx], ?_⟩
        cases h1; simp
      · left
        rw [if_neg hkx] at h1
        exact h1
    · right
      refine ⟨i + 1, by simp; omega, by simpa using hk, ?_⟩
      rw [hv]; simp; omega

theorem addParents_spec (sub : Skeleton) (spi : Int) (m : BoneIdMap) (first : List Int)
    (ids acc r : List Int)
    (h : addParents sub spi m first ids acc = .ok r) :
    ∃ ps, r = acc ++ ps ∧ ps.length = ids.length ∧
      ∀ (j : Nat) (k : Int), ids[j]? = some k → ∃ v, ps[j]? = some v ∧ ParentRel sub spi m first k v := by
  induction ids generalizing acc with
  | nil =>
    simp only [addParents] at h
    cases h
    exact ⟨[], by simp, rfl, by simp⟩
  | cons x rest ih =>
    have key : ∀ v, ParentRel sub spi m first x v →
        addParents sub spi m first rest (acc ++ [v]) = .ok r →
        ∃ ps, r = acc ++ ps ∧ ps.length = (x :: rest).length ∧
          ∀ (j : Nat) (k : Int), (x :: rest)[j]? = some k →
            ∃ v, ps[j]? = some v ∧ ParentRel sub spi m first k v := by
      intro v hv hrec
      obtain ⟨ps, hr, hl, hp⟩ := ih _ hrec
      refine ⟨v :: ps, by simp [hr], by simp [hl], ?_⟩
      intro j k hj
      cases j with
      | zero =>
        simp at hj
        subst hj
        exact ⟨v, by simp, hv⟩
      | succ j =>
        simp at hj
        simpa using hp j k hj
    simp only [addParents] at h
    split_ifs at h with h1 h2
    · split at h
      · cases h
      · rename_i v hm
        exact key v (Or.inl ⟨h1, hm⟩) h
    · split at h
      · cases h
      · rename_i v hm
        exact key v (Or.inr (Or.inl ⟨by simpa using h1, h2, hm⟩)) h
    · exact key (-1) (Or.inr (Or.inr ⟨by simpa using h1, by simpa using h2, rfl⟩)) h

theorem mergeStep_spec (ibs : List (Option Skeleton)) (sps : List Int) (st st2 : MergeState)
    (idx : Int) (h : mergeStep ibs sps st idx = .ok st2) :
    ∃ sub spi ps, vecAt ibs idx = some (some sub) ∧ vecAt sps idx = some spi ∧
      st2.bones = st.bones ++ sub.bone_ids.map sub.bone ∧
      st2.parents = st.parents ++ ps ∧ ps.length = sub.bone_ids.length ∧
      st2.firstBonePerSkeleton = vecSet st.firstBonePerSkeleton idx
        (if sub.bone_ids = [] then -1
          else (st.bones.length : Int) + (sub.bone_ids.length : Int) - 1) ∧
      ∀ (j : Nat) (k : Int), sub.bone_ids[j]? = some k → ∃ v, ps[j]? = some v ∧
        ParentRel sub spi (addBones sub sub.bone_ids st.bones (-1) (fun _ => none)).2.2
          st.firstBonePerSkeleton k v := by
  unfold mergeStep at h
  split at h
  · cases h
  · rename_i subSkeleton hsub
    split at h
    · cases h
    · rename_i spi hspi
      split at h
      · cases h
      · rename_i sub
        simp only at h
        split at h
        · cases h
        · rename_i parents hpar
          cases h
          obtain ⟨ps, hr, hl, hp⟩ := addParents_spec _ _ _ _ _ _ _ hpar
          exact ⟨sub, spi, ps, hsub, hspi, by simp [addBones_bones], hr, hl,
            by simp [addBones_first], hp⟩

theorem ParentsFirst_at (sub : Skeleton) (h : sub.ParentsFirst) (j : Nat) (k : Int)
    (hk : sub.bone_ids[j]? = some k) :
    sub.parentId k = -1 ∨ ∃ i, i < j ∧ sub.idList[i]? = some (sub.parentId k) := by
  obtain ⟨hj, hjk⟩ := List.getElem?_eq_some.mp hk
  have hd : sub.bone_ids.getD j 0 = k := by
    rw [List.getD_eq_getElem?_getD, hk]
    rfl
  have := h j hj
  rwa [hd] at this

theorem MergeInv_start (sps : List Int) : MergeInv (MergeState.start sps) := by
  refine ⟨rfl, ?_, ?_⟩
  · intro v hv
    left
    exact List.eq_of_mem_replicate hv
  · intro p v hp
    simp [MergeState.start] at hp

theorem vecAt_mem {α : Type} (v : List α) (i : Int) (a : α) (h : vecAt v i = some a) :
    a ∈ v := by
  unfold vecAt at h
  split_ifs at h
  exact List.getElem?_mem h

theorem mem_vecSet {α : Type} (v : List α) (i : Int) (a b : α) (h : b ∈ vecSet v i a) :
    b ∈ v ∨ b = a := by
  unfold vecSet at h
  split_ifs at h
  · exact List.mem_or_eq_of_mem_set h
  · exact Or.inl h

theorem MergeInv_step (ibs : List (Option Skeleton)) (sps : List Int) (st st2 : MergeState)
    (idx : Int)
    (hwf : ∀ sub, some sub ∈ ibs → sub.UniqueIds ∧ sub.ParentsFirst)
    (hinv : MergeInv st) (h : mergeStep ibs sps st idx = .ok st2) : MergeInv st2 := by
  obtain ⟨sub, spi, ps, hsub, hspi, hb, hp, hl, hf, hrel⟩ := mergeStep_spec _ _ _ _ _ h
  obtain ⟨hlen, hfirst, hpar⟩ := hinv
  obtain ⟨huniq, hpf⟩ := hwf sub (vecAt_mem _ _ _ hsub)
  refine ⟨by simp [hb, hp, hl, hlen], ?_, ?_⟩
  · intro v hv
    rw [hf] at hv
    rw [hb]
    simp only [List.length_append, List.length_map, Nat.cast_add]
    rcases mem_vecSet _ _ _ _ hv with hv | hv
    · rcases hfirst v hv with h1 | ⟨h1, h2⟩
      · exact Or.inl h1
      · exact Or.inr ⟨h1, by omega⟩
    · by_cases he : sub.bone_ids = []
      · left; simpa [he] using hv
      · right
        rw [if_neg he] at hv
        have : 0 < sub.bone_ids.length := List.length_pos.mpr he
        omega
  · intro p v hpv
    rw [hp] at hpv
    by_cases hlt : p < st.parents.length
    · rw [List.getElem?_append_left hlt] at hpv
      exact hpar p v hpv
    · rw [List.getElem?_append_right (by omega)] at hpv
      have hj : p - st.parents.length < sub.bone_ids.length := by
        rw [← hl]
        exact (List.getElem?_eq_some.mp hpv).1
      obtain ⟨k, hk⟩ : ∃ k, sub.bone_ids[p - st.parents.length]? = some k :=
        ⟨_, List.getElem?_eq_getElem hj⟩
      obtain ⟨v1, hv1, hr⟩ := hrel _ k hk
      rw [hpv] at hv1
      cases hv1
      rcases hr with ⟨hne, hm⟩ | ⟨_, _, hat⟩ | ⟨_, _, hv⟩
      · rcases addBones_map _ _ _ _ _ _ _ hm with h0 | ⟨i2, hi2, hid, hv⟩
        · cases h0
        · rcases ParentsFirst_at sub hpf _ k hk with hroot | ⟨i, hi, hidi⟩
          · exact absurd hroot hne
          · have hi2l : i2 < sub.idList.length := by
              simpa [Skeleton.idList] using hi2
            have hii : i2 = i :=
              List.getElem?_inj hi2l huniq (by rw [hidi]; exact hid)
            right
            omega
      · rcases hfirst v (vecAt_mem _ _ _ hat) with h1 | ⟨h1, h2⟩
        · exact Or.inl h1
        · right; omega
      · exact Or.inl hv

theorem MergeInv_loop (ibs : List (Option Skeleton)) (sps : List Int) (order : List Int)
    (st st2 : MergeState)
    (hwf : ∀ sub, some sub ∈ ibs → sub.UniqueIds ∧ sub.ParentsFirst)
    (hinv : MergeInv st) (h : mergeLoop ibs sps order st = .ok st2) : MergeInv st2 := by
  induction order generalizing st with
  | nil =>
    simp only [mergeLoop] at h
    cases h
    exact hinv
  | cons idx rest ih =>
    simp only [mergeLoop] at h
    split at h
    · cases h
    · rename_i st1 hst1
      exact ih st1 (MergeInv_step ibs sps st st1 idx hwf hinv hst1) h

theorem wellFormed_ABC :
    ∀ sub, some sub ∈ [some skelA, some skelB, some skelC] →
      sub.UniqueIds ∧ sub.ParentsFirst := by
  intro sub h
  simp only [List.mem_cons, Option.some.injEq, List.mem_singleton, List.not_mem_nil,
    or_false] at h
  rcases h with rfl | rfl | rfl <;> exact ⟨by decide, by decide⟩

theorem addBones_map_complete (sub : Skeleton) (ids : List Int) (bones : List Bone) (f : Int)
    (m : BoneIdMap) (k : Int)
    (h : (∃ v, m k = some v) ∨ k ∈ ids.map (fun x => (sub.bone x).id)) :
    ∃ v, (addBones sub ids bones f m).2.2 k = some v := by
  induction ids generalizing bones f m with
  | nil =>
    rcases h with h | h
    · simpa [addBones] using h
    · simp at h
  | cons x rest ih =>
    simp only [addBones]
    apply ih
    by_cases hk : k = (sub.bone x).id
    · left
      exact ⟨(bones.length : Int), by simp [BoneIdMap.set, hk]⟩
    · rcases h with ⟨v, hv⟩ | h
      · left
        exact ⟨v, by simp [BoneIdMap.set, hk, hv]⟩
      · right
        simp only [List.map_cons, List.mem_cons] at h
        rcases h with h | h
        · exact absurd h hk
        · exact h

theorem addParents_ok (sub : Skeleton) (spi : Int) (m : BoneIdMap) (first : List Int)
    (ids acc : List Int)
    (hm : ∀ k ∈ ids, sub.parentId k ≠ -1 → ∃ v, m (sub.parentId k) = some v)
    (hf : spi ≠ -1 → ∃ v, vecAt first spi = some v) :
    ∃ r, addParents sub spi m first ids acc = .ok r := by
  induction ids generalizing acc with
  | nil => exact ⟨acc, rfl⟩
  | cons x rest ih =>
    have hrest : ∀ k ∈ rest, sub.parentId k ≠ -1 → ∃ v, m (sub.parentId k) = some v :=
      fun k hk => hm k (List.mem_cons_of_mem _ hk)
    simp only [addParents]
    split_ifs with h1 h2
    · obtain ⟨v, hv⟩ := hm x (List.mem_cons_self _ _) h1
      simp only [hv]
      exact ih _ hrest
    · obtain ⟨v, hv⟩ := hf h2
      simp only [hv]
      exact ih _ hrest
    · exact ih _ hrest

theorem mergeStep_ok (ibs : List (Option Skeleton)) (sps : List Int) (st : MergeState)
    (idx : Int) (sub : Skeleton) (spi : Int)
    (hsub : vecAt ibs idx = some (some sub)) (hspi : vecAt sps idx = some spi)
    (hf : spi ≠ -1 → ∃ v, vecAt st.firstBonePerSkeleton spi = some v)
    (hclosed : sub.Closed) :
    ∃ st2, mergeStep ibs sps st idx = .ok st2 := by
  unfold mergeStep
  simp only [hsub, hspi]
  have hm : ∀ k ∈ sub.bone_ids, sub.parentId k ≠ -1 →
      ∃ v, (addBones sub sub.bone_ids st.bones (-1) (fun _ => none)).2.2 (sub.parentId k)
        = some v := by
    intro k hk hne
    apply addBones_map_complete
    right
    rcases hclosed k hk with h | h
    · exact absurd h hne
    · exact h
  obtain ⟨r, hr⟩ := addParents_ok sub spi _ st.firstBonePerSkeleton sub.bone_ids st.parents hm hf
  simp only [hr]
  exact ⟨_, rfl⟩

theorem vecAt_some_of_lt {α : Type} (v : List α) (i : Int) (h0 : 0 ≤ i)
    (h1 : i < (v.length : Int)) : ∃ a, vecAt v i = some a := by
  unfold vecAt
  rw [if_pos h0]
  have : i.toNat < v.length := by omega
  exact ⟨_, List.getElem?_eq_getElem this⟩

theorem length_vecSet {α : Type} (v : List α) (i : Int) (a : α) :
    (vecSet v i a).length = v.length := by
  unfold vecSet
  split_ifs <;> simp

theorem mergeLoop_ok (ibs : List (Option Skeleton)) (sps : List Int) (order : List Int)
    (st : MergeState) (hlen : st.firstBonePerSkeleton.length = sps.length)
    (hok : ∀ idx ∈ order, SurfaceOk ibs sps idx) :
    ∃ st2, mergeLoop ibs sps order st = .ok st2 := by
  induction order generalizing st with
  | nil => exact ⟨st, rfl⟩
  | cons idx rest ih =>
    obtain ⟨sub, spi, hsub, hspi, hrange, hclosed⟩ := hok idx (List.mem_cons_self _ _)
    have hf : spi ≠ -1 → ∃ v, vecAt st.firstBonePerSkeleton spi = some v := by
      intro hne
      rcases hrange with h | ⟨h0, h1⟩
      · exact absurd h hne
      · exact vecAt_some_of_lt _ _ h0 (by rw [hlen]; exact h1)
    obtain ⟨st1, hst1⟩ := mergeStep_ok ibs sps st idx sub spi hsub hspi hf hclosed
    simp only [mergeLoop, hst1]
    apply ih
    · obtain ⟨_, _, _, _, _, _, _, _, hfirst, _⟩ := mergeStep_spec _ _ _ _ _ hst1
      rw [hfirst, length_vecSet, hlen]
    · exact fun i hi => hok i (List.mem_cons_of_mem _ hi)

theorem mergeLoop_blocks (ibs : List (Option Skeleton)) (sps : List Int) (order : List Int)
    (st0 st : MergeState) (h : mergeLoop ibs sps order st0 = .ok st)
    (hlen : st0.parents.length = st0.bones.length) :
    st.bones = st0.bones ++ order.flatMap (blockBones ibs) ∧
    st.parents.length = st.bones.length ∧
    (∃ tail, st.parents = st0.parents ++ tail) ∧
    ∀ (pre : List Int) (idx : Int) (post : List Int) (sub : Skeleton),
      order = pre ++ idx :: post → vecAt ibs idx = some (some sub) →
      ∀ (j : Nat) (k : Int), sub.bone_ids[j]? = some k → sub.parentId k ≠ -1 →
        ∃ i, i < sub.bone_ids.length ∧ sub.idList[i]? = some (sub.parentId k) ∧
          st.parents[st0.bones.length + (pre.flatMap (blockBones ibs)).length + j]? =
            some ((st0.bones.length + (pre.flatMap (blockBones ibs)).length + i : Nat) : Int) := by
  induction order generalizing st0 with
  | nil =>
    simp only [mergeLoop] at h
    cases h
    refine ⟨by simp, hlen, ⟨[], by simp⟩, ?_⟩
    intro pre idx post sub ho
    simp at ho
  | cons idx0 rest ih =>
    simp only [mergeLoop] at h
    split at h
    · cases h
    · rename_i st1 hst1
      obtain ⟨sub0, spi0, ps, hsub0, hspi0, hb, hp, hl, hf, hrel⟩ :=
        mergeStep_spec _ _ _ _ _ hst1
      have hlen1 : st1.parents.length = st1.bones.length := by simp [hb, hp, hl, hlen]
      obtain ⟨hbones, hlen2, ⟨tail, htail⟩, hblocks⟩ := ih st1 h hlen1
      have hblock0 : blockBones ibs idx0 = sub0.bone_ids.map sub0.bone := by
        simp [blockBones, hsub0]
      refine ⟨by simp [hbones, hb, hblock0], hlen2, ⟨ps ++ tail, by simp [htail, hp]⟩, ?_⟩
      intro pre idx post sub ho hsub j k hk hne
      cases pre with
      | nil =>
        simp only [List.nil_append, List.cons.injEq] at ho
        obtain ⟨hidx, -⟩ := ho
        subst hidx
        have hs : sub0 = sub := by
          rw [hsub0] at hsub
          cases hsub
          rfl
        subst hs
        obtain ⟨v, hv, hr⟩ := hrel j k hk
        rcases hr with ⟨_, hm⟩ | ⟨hroot, _⟩ | ⟨hroot, _⟩
        · rcases addBones_map _ _ _ _ _ _ _ hm with h0 | ⟨i, hi, hid, hvi⟩
          · cases h0
          · refine ⟨i, hi, hid, ?_⟩
            have hj : j < ps.length := (List.getElem?_eq_some.mp hv).1
            rw [htail, hp]
            simp only [List.flatMap_nil, List.length_nil, Nat.add_zero]
            rw [List.getElem?_append_left (by simp; omega),
              List.getElem?_append_right (by omega)]
            rw [← hlen, Nat.add_sub_cancel_left, hv, hvi]
            simp [hlen]
        · exact absurd hroot hne
        · exact absurd hroot hne
      | cons idx1 pre1 =>
        simp only [List.cons_append, List.cons.injEq] at ho
        obtain ⟨hidx, hrest⟩ := ho
        subst hidx
        obtain ⟨i, hi, hid, hpos⟩ := hblocks pre1 idx post sub hrest hsub j k hk hne
        refine ⟨i, hi, hid, ?_⟩
        have e1 : st1.bones.length = st0.bones.length + (blockBones ibs idx0).length := by
          simp [hb, hblock0]
        simp only [List.flatMap_cons, List.length_append]
        rw [e1] at hpos
        have e2 : ∀ x : Nat, st0.bones.length + ((blockBones ibs idx0).length +
            (List.flatMap pre1 (blockBones ibs)).length) + x =
            st0.bones.length + (blockBones ibs idx0).length +
              (List.flatMap pre1 (blockBones ibs)).length + x := by
          intro x; omega
        rw [e2 j, e2 i]
        exact hpos

theorem readSurfaces_hostPQ :
    readSurfaces hostPQ = .inputs [some skelP, some skelQ] [-1, 0] := rfl

theorem getHierarchyOrder_PQ : getHierarchyOrder [-1, 0] = some [0, 1] := by decide

theorem surfaceOk_PQ :
    ∀ idx ∈ ([0, 1] : List Int), SurfaceOk [some skelP, some skelQ] [-1, 0] idx := by
  intro idx h
  simp only [List.mem_cons, List.mem_singleton, List.not_mem_nil, or_false] at h
  rcases h with rfl | rfl
  · exact ⟨skelP, -1, rfl, by decide, Or.inl rfl, by decide⟩
  · exact ⟨skelQ, 0, rfl, by decide, Or.inr ⟨by decide, by decide⟩, by decide⟩

theorem update_skeleton_hostPQ :
    update_skeleton getHierarchyOrder hostPQ State.initial =
      .ok (.kSuccess,
        { State.initial with
          lastImplicitBones := [some skelP, some skelQ],
          lastParents := [-1, 0],
          rebuilds := 1,
          skeleton := some ⟨[⟨1, 1⟩, ⟨2, 2⟩, ⟨1, 1⟩, ⟨2, 2⟩], [-1, 0, 1, 2]⟩ }) := rfl

theorem mergeLoop_null_faults (ibs : List (Option Skeleton)) (sps : List Int)
    (order : List Int) (st : MergeState) (idx : Int)
    (hmem : idx ∈ order) (hnull : vecAt ibs idx = some none) :
    ∃ f, mergeLoop ibs sps order st = .error f := by
  induction order generalizing st with
  | nil => simp at hmem
  | cons i rest ih =>
    simp only [mergeLoop]
    cases hstep : mergeStep ibs sps st i with
    | error f => exact ⟨f, rfl⟩
    | ok st1 =>
      simp only
      rcases List.mem_cons.mp hmem with h | h
      · subst h
        obtain ⟨sub, _, _, hsub, _⟩ := mergeStep_spec _ _ _ _ _ hstep
        rw [hnull] at hsub
        cases hsub
      · exact ih st1 h

theorem stale_mesh_is_reachable (compute_surface : MeshGeom → BuiltSkeleton → MeshGeom) :
    update_skeleton getHierarchyOrder (hostOf [])
        (load_mesh_geometry compute_surface .kSuccess stateABC).2 =
      .ok (.kSuccess, ⟨none, [], [], compute_surface MeshGeom.empty builtABC, 2⟩) ∧
    (get_mesh_geometry compute_surface .kSuccess
        ⟨none, [], [], compute_surface MeshGeom.empty builtABC, 2⟩).1 =
      compute_surface MeshGeom.empty builtABC :=
  ⟨rfl, rfl⟩

theorem cyclic_snapshot_keeps_old_skeleton :
    update_skeleton getHierarchyOrder hostCycle stateABC =
      .ok (.kSuccess,
        { stateABC with lastImplicitBones := [some skelA, some skelB], lastParents := [1, 0] }) :=
  rfl

theorem update_skeleton_rebuild_counts (resolver : List Int → Option (List Int))
    (host : Host) (s s1 : State) (status : MStatus) (ibs : List (Option Skeleton))
    (sps order : List Int)
    (hread : readSurfaces host = .inputs ibs sps)
    (hchg : (vecPtrEq ibs s.lastImplicitBones && sps == s.lastParents) = false)
    (hord : resolver sps = some order)
    (hret : update_skeleton resolver host s = .ok (status, s1)) :
    s1.rebuilds = s.rebuilds + 1 ∧ s1 ≠ s ∧
      (s1.skeleton ≠ none → s1.skeletonIdentity = some (s.rebuilds + 1)) := by
  rw [update_skeleton_changed resolver host s ibs sps hread hchg, hord] at hret
  simp only at hret
  split at hret
  · cases hret
  · cases hret
    refine ⟨rfl, ?_, ?_⟩
    · intro h
      have h2 := congrArg State.rebuilds h
      simp at h2
    · intro hne
      simp only [State.skeletonIdentity]
      cases hsk : resetSkeleton _ _ with
      | none => exact absurd hsk hne
      | some sk => rfl

/-! ## Claims -/

/-- C2 as stated fails: on the cyclic input `surfaceParent = [1, 0]`, when the
host cannot resolve the DAG path of the node for the diagnostic,
`update_skeleton` returns that failure status and not success. -/
theorem cycle_returns_success_counterexample :
    ¬ (∀ (host : Host) (s : State) (ibs : List (Option Skeleton)) (sps : List Int),
        readSurfaces host = .inputs ibs sps →
        (vecPtrEq ibs s.lastImplicitBones && sps == s.lastParents) = false →
        getHierarchyOrder sps = none →
        ∃ s1, update_skeleton getHierarchyOrder host s = .ok (.kSuccess, s1) ∧
          s1.skeleton = s.skeleton) := by
  intro h
  obtain ⟨s1, h1, -⟩ := h hostCycleNoPath State.initial _ _ readSurfaces_hostCycleNoPath
    rfl getHierarchyOrder_cycle
  rw [update_skeleton_changed getHierarchyOrder hostCycleNoPath State.initial _ _
    readSurfaces_hostCycleNoPath rfl, getHierarchyOrder_cycle] at h1
  simp [hostCycleNoPath] at h1

/-- C2 (amended): for every node state and every gathered input that differs
from the stored snapshot and on which the resolver reports a cycle,
`update_skeleton` returns to the caller without a fault, stores the input as
the new snapshot and leaves the held skeleton (and the mesh) exactly as it was;
the status is success when the host resolves the DAG path and the partial path
name of the node, and otherwise the failure status of the first of these two
lookups that failed. -/
theorem update_skeleton_cycle (resolver : List Int → Option (List Int)) (host : Host)
    (s : State) (ibs : List (Option Skeleton)) (sps : List Int)
    (hread : readSurfaces host = .inputs ibs sps)
    (hchg : (vecPtrEq ibs s.lastImplicitBones && sps == s.lastParents) = false)
    (hcyc : resolver sps = none) :
    ∃ status s1, update_skeleton resolver host s = .ok (status, s1) ∧
      s1.skeleton = s.skeleton ∧ s1.rebuilds = s.rebuilds ∧
      s1.meshGeometry = s.meshGeometry ∧
      s1.lastImplicitBones = ibs ∧ s1.lastParents = sps ∧
      (host.dagPath = .kSuccess → host.partialPathName = .kSuccess → status = .kSuccess) ∧
      (host.dagPath ≠ .kSuccess → status = host.dagPath) ∧
      (host.dagPath = .kSuccess → host.partialPathName ≠ .kSuccess →
        status = host.partialPathName) := by
  rw [update_skeleton_changed resolver host s ibs sps hread hchg, hcyc]
  by_cases h1 : host.dagPath = .kSuccess
  · by_cases h2 : host.partialPathName = .kSuccess
    · exact ⟨.kSuccess, { s with lastImplicitBones := ibs, lastParents := sps },
        by simp [h1, h2], rfl, rfl, rfl, rfl, rfl, by simp, by simp [h1], by simp [h2]⟩
    · exact ⟨host.partialPathName, { s with lastImplicitBones := ibs, lastParents := sps },
        by simp [h1, h2], rfl, rfl, rfl, rfl, rfl, by simp [h2], by simp [h1], by simp⟩
  · exact ⟨host.dagPath, { s with lastImplicitBones := ibs, lastParents := sps },
      by simp [h1], rfl, rfl, rfl, rfl, rfl, by simp [h1], by simp, by simp [h1]⟩

/-- Instance of `update_skeleton_cycle` on `surfaceParent = [1, 0]` from a fresh node. -/
theorem update_skeleton_cycle_witness :
    ∃ status s1, update_skeleton getHierarchyOrder hostCycle State.initial = .ok (status, s1) ∧
      s1.skeleton = State.initial.skeleton ∧ s1.rebuilds = State.initial.rebuilds ∧
      s1.meshGeometry = State.initial.meshGeometry ∧
      s1.lastImplicitBones = [some skelA, some skelB] ∧ s1.lastParents = [1, 0] ∧
      (hostCycle.dagPath = .kSuccess → hostCycle.partialPathName = .kSuccess →
        status = .kSuccess) ∧
      (hostCycle.dagPath ≠ .kSuccess → status = hostCycle.dagPath) ∧
      (hostCycle.dagPath = .kSuccess → hostCycle.partialPathName ≠ .kSuccess →
        status = hostCycle.partialPathName) :=
  update_skeleton_cycle getHierarchyOrder hostCycle State.initial _ _ readSurfaces_hostCycle
    rfl getHierarchyOrder_cycle

/-- C7: `update_skeleton` is idempotent on unchanged input.  For every node
state `s` and gathered input `(ibs, sps)`, if a first call on that input
returns to the caller with state `s1`, then a second call on the same input
returns success and leaves the whole state `s1` as it is: the held skeleton,
both snapshot vectors, the mesh and the rebuild counter.  The counter goes up
with every pass of lines 281-288 (`update_skeleton_rebuild_counts`), so the
second call performs no rebuild and the held object keeps its identity. -/
theorem update_skeleton_idempotent (resolver : List Int → Option (List Int))
    (host1 host2 : Host) (s s1 : State) (status1 : MStatus)
    (ibs : List (Option Skeleton)) (sps : List Int)
    (hread1 : readSurfaces host1 = .inputs ibs sps)
    (hread2 : readSurfaces host2 = .inputs ibs sps)
    (hfirst : update_skeleton resolver host1 s = .ok (status1, s1)) :
    update_skeleton resolver host2 s1 = .ok (.kSuccess, s1) := by
  apply update_skeleton_unchanged resolver host2 s1 ibs sps hread2
  cases hsame : (vecPtrEq ibs s.lastImplicitBones && sps == s.lastParents) with
  | true =>
    rw [update_skeleton_unchanged resolver host1 s ibs sps hread1 hsame] at hfirst
    cases hfirst
    exact hsame
  | false =>
    rw [update_skeleton_changed resolver host1 s ibs sps hread1 hsame] at hfirst
    have hlast : s1.lastImplicitBones = ibs ∧ s1.lastParents = sps := by
      split at hfirst
      · split_ifs at hfirst <;> cases hfirst <;> exact ⟨rfl, rfl⟩
      · split at hfirst
        · cases hfirst
        · cases hfirst; exact ⟨rfl, rfl⟩
    rw [hlast.1, hlast.2]
    simp [vecPtrEq_self]

/-- Instance of `update_skeleton_idempotent` on the surfaces `[A, B, C]`: the
first call on a fresh node is rebuild number 1, the second call leaves the
counter at 1. -/
theorem update_skeleton_idempotent_witness :
    update_skeleton getHierarchyOrder hostABC stateABC = .ok (.kSuccess, stateABC) ∧
      stateABC.skeletonIdentity = some 1 :=
  ⟨update_skeleton_idempotent getHierarchyOrder hostABC hostABC State.initial stateABC
      .kSuccess _ _ readSurfaces_hostABC readSurfaces_hostABC rfl, rfl⟩

/-- C8 (code at the failing input): the node holds the merge of `[A, B, C]`
and the new input is one surface whose sub-skeleton is null.  That input
differs from the snapshot, is acyclic (order `[0]`) and contributes no bone,
yet the call does not reset the held skeleton to null: it faults on the null
dereference of line 247 before it reaches line 282. -/
theorem update_skeleton_no_bones_faults :
    readSurfaces hostAllNull = .inputs [none] [-1] ∧
      (vecPtrEq [none] stateABC.lastImplicitBones && [-1] == stateABC.lastParents) = false ∧
      getHierarchyOrder [-1] = some [0] ∧
      update_skeleton getHierarchyOrder hostAllNull stateABC = .error .nullDereference :=
  ⟨rfl, rfl, by decide, rfl⟩

/-- C10: in every node state reachable from a fresh node by calls of
`update_skeleton`, if the resolver returns an order on the stored
`lastParents`, then the merge loop on the stored snapshot runs to its end and
the held skeleton is the skeleton built from its result.  Hence a reachable
state whose held skeleton is not the merge of its snapshot has a snapshot the
resolver rejects.  The resolver is only assumed to return the empty order on
the empty parent vector. -/
theorem reachable_skeleton_is_merge_of_snapshot (resolver : List Int → Option (List Int))
    (hres : ∀ o, resolver [] = some o → o = [])
    (s : State) (hreach : Reachable resolver s)
    (order : List Int) (hord : resolver s.lastParents = some order) :
    ∃ st, mergeLoop s.lastImplicitBones s.lastParents order
        (MergeState.start s.lastParents) = .ok st ∧
      s.skeleton = resetSkeleton st.bones st.parents := by
  induction hreach generalizing order with
  | initial =>
    have ho : order = [] := hres order hord
    subst ho
    exact ⟨MergeState.start [], rfl, rfl⟩
  | @step s s1 host status _ hstep ih =>
    cases hread : readSurfaces host with
    | fault f => simp [update_skeleton, hread] at hstep
    | failed status1 =>
      simp only [update_skeleton, hread] at hstep
      cases hstep
      exact ih order hord
    | inputs ibs sps =>
      cases hsame : (vecPtrEq ibs s.lastImplicitBones && sps == s.lastParents) with
      | true =>
        rw [update_skeleton_unchanged resolver host s ibs sps hread hsame] at hstep
        cases hstep
        exact ih order hord
      | false =>
        rw [update_skeleton_changed resolver host s ibs sps hread hsame] at hstep
        split at hstep
        · rename_i hnone
          have hlast : s1.lastParents = sps := by
            split_ifs at hstep <;> cases hstep <;> rfl
          rw [hlast, hnone] at hord
          cases hord
        · rename_i order1 hsome
          split at hstep
          · cases hstep
          · rename_i st hst
            cases hstep
            have ho : order = order1 := by
              have h2 : resolver sps = some order := hord
              rw [hsome] at h2
              cases h2
              rfl
            subst ho
            exact ⟨st, hst, rfl⟩

/-- Instance of `reachable_skeleton_is_merge_of_snapshot`: the node after one
call on the surfaces `[A, B, C]`. -/
theorem reachable_skeleton_is_merge_of_snapshot_witness :
    ∃ st, mergeLoop stateABC.lastImplicitBones stateABC.lastParents [0, 1, 2]
        (MergeState.start stateABC.lastParents) = .ok st ∧
      stateABC.skeleton = resetSkeleton st.bones st.parents :=
  reachable_skeleton_is_merge_of_snapshot getHierarchyOrder
    (fun o h => by
      have h2 : some [] = some o := h
      cases h2
      rfl)
    stateABC
    (Reachable.step Reachable.initial
      (show update_skeleton getHierarchyOrder hostABC State.initial = .ok (.kSuccess, stateABC)
        from rfl))
    [0, 1, 2] getHierarchyOrder_chain

/-- C3: the merge keeps parents before children.  For every gathered input
that differs from the snapshot, on which the resolver returns an order and
whose sub-skeletons have unique bone ids enumerated with parents before
children, the skeleton `update_skeleton` builds has one parent entry per bone
and every entry `parents[p]` is `-1` or a position `0 <= parents[p] < p`. -/
theorem update_skeleton_parents_precede (resolver : List Int → Option (List Int))
    (host : Host) (s s1 : State) (status : MStatus) (ibs : List (Option Skeleton))
    (sps order : List Int) (sk : BuiltSkeleton)
    (hread : readSurfaces host = .inputs ibs sps)
    (hchg : (vecPtrEq ibs s.lastImplicitBones && sps == s.lastParents) = false)
    (hord : resolver sps = some order)
    (hwf : ∀ sub, some sub ∈ ibs → sub.UniqueIds ∧ sub.ParentsFirst)
    (hret : update_skeleton resolver host s = .ok (status, s1))
    (hsk : s1.skeleton = some sk) :
    sk.parents.length = sk.bones.length ∧
      ∀ (p : Nat) (v : Int), sk.parents[p]? = some v → v = -1 ∨ (0 ≤ v ∧ v < (p : Int)) := by
  rw [update_skeleton_changed resolver host s ibs sps hread hchg, hord] at hret
  simp only at hret
  split at hret
  · cases hret
  · rename_i st hst
    cases hret
    have hinv := MergeInv_loop ibs sps order _ st hwf (MergeInv_start sps) hst
    have hsk1 : resetSkeleton st.bones st.parents = some sk := hsk
    unfold resetSkeleton at hsk1
    split_ifs at hsk1
    cases hsk1
    exact ⟨hinv.1, hinv.2.2⟩

/-- Instance of `update_skeleton_parents_precede` on the surfaces `[A, B, C]`. -/
theorem update_skeleton_parents_precede_witness :
    ([-1, 0, 1, 2] : List Int).length =
        ([⟨10, 10⟩, ⟨11, 11⟩, ⟨20, 20⟩, ⟨30, 30⟩] : List Bone).length ∧
      ∀ (p : Nat) (v : Int), ([-1, 0, 1, 2] : List Int)[p]? = some v →
        v = -1 ∨ (0 ≤ v ∧ v < (p : Int)) :=
  update_skeleton_parents_precede getHierarchyOrder hostABC State.initial stateABC .kSuccess
    _ _ [0, 1, 2] ⟨[⟨10, 10⟩, ⟨11, 11⟩, ⟨20, 20⟩, ⟨30, 30⟩], [-1, 0, 1, 2]⟩
    readSurfaces_hostABC rfl getHierarchyOrder_chain wellFormed_ABC rfl rfl

/-- C9: the merge never conflates bones of different sub-skeletons.  For every
gathered input that differs from the snapshot and on which the resolver returns
an order all of whose surfaces are in range, non-null, closed and attached to
`-1` or to an index of the vectors, `update_skeleton` returns success holding
the skeleton built from bones `st.bones` and parents `st.parents`, where
`st.bones` is the concatenation in resolved order of the bone lists of the
sub-skeletons (its length the sum of their bone counts), the bone `j` of the
surface at place `pre.length` of the order sits at position `off + j` with
`off` the number of bones of the surfaces before it, and if that bone is not a
root its parent entry is `off + i` for a position `i` of its own sub-skeleton
that carries the parent id. -/
theorem update_skeleton_blocks (resolver : List Int → Option (List Int))
    (host : Host) (s : State) (ibs : List (Option Skeleton)) (sps order : List Int)
    (hread : readSurfaces host = .inputs ibs sps)
    (hchg : (vecPtrEq ibs s.lastImplicitBones && sps == s.lastParents) = false)
    (hord : resolver sps = some order)
    (hok : ∀ idx ∈ order, SurfaceOk ibs sps idx) :
    ∃ (st : MergeState) (s1 : State), update_skeleton resolver host s = .ok (.kSuccess, s1) ∧
      s1.skeleton = resetSkeleton st.bones st.parents ∧
      st.bones = order.flatMap (blockBones ibs) ∧
      st.bones.length = (order.map (fun idx => (blockBones ibs idx).length)).sum ∧
      st.parents.length = st.bones.length ∧
      ∀ (pre : List Int) (idx : Int) (post : List Int) (sub : Skeleton),
        order = pre ++ idx :: post → vecAt ibs idx = some (some sub) →
        ∀ (j : Nat) (k : Int), sub.bone_ids[j]? = some k →
          st.bones[(pre.flatMap (blockBones ibs)).length + j]? = some (sub.bone k) ∧
          (sub.parentId k ≠ -1 →
            ∃ i, i < sub.bone_ids.length ∧ sub.idList[i]? = some (sub.parentId k) ∧
              st.parents[(pre.flatMap (blockBones ibs)).length + j]? =
                some (((pre.flatMap (blockBones ibs)).length + i : Nat) : Int)) := by
  obtain ⟨st, hst⟩ := mergeLoop_ok ibs sps order (MergeState.start sps)
    (by simp [MergeState.start]) hok
  obtain ⟨hbones, hlen, -, hblocks⟩ :=
    mergeLoop_blocks ibs sps order (MergeState.start sps) st hst rfl
  have hb : st.bones = order.flatMap (blockBones ibs) := by
    simpa [MergeState.start] using hbones
  refine ⟨st, { s with lastImplicitBones := ibs, lastParents := sps,
                       skeleton := resetSkeleton st.bones st.parents,
                       rebuilds := s.rebuilds + 1 }, ?_, rfl, hb, ?_,
    hlen, ?_⟩
  · rw [update_skeleton_changed resolver host s ibs sps hread hchg, hord]
    simp only [hst]
  · rw [hb, List.length_flatMap]
    rfl
  · intro pre idx post sub ho hsub j k hk
    constructor
    · have hblock : blockBones ibs idx = sub.bone_ids.map sub.bone := by
        simp [blockBones, hsub]
      have hj : j < sub.bone_ids.length := (List.getElem?_eq_some.mp hk).1
      rw [hb, ho, List.flatMap_append, List.flatMap_cons, hblock,
        List.getElem?_append_right (by omega), Nat.add_sub_cancel_left,
        List.getElem?_append_left (by simpa using hj), List.getElem?_map, hk]
      rfl
    · intro hne
      obtain ⟨i, hi, hid, hpos⟩ := hblocks pre idx post sub ho hsub j k hk hne
      refine ⟨i, hi, hid, ?_⟩
      simpa [MergeState.start] using hpos

/-- Instance of `update_skeleton_blocks` on `[P, Q]`, two sub-skeletons that
use the same bone ids: the merged skeleton has four bones, and the child of Q
points into the block of Q. -/
theorem update_skeleton_blocks_witness :
    ∃ (st : MergeState) (s1 : State), update_skeleton getHierarchyOrder hostPQ State.initial = .ok (.kSuccess, s1) ∧
      s1.skeleton = resetSkeleton st.bones st.parents ∧
      st.bones = ([0, 1] : List Int).flatMap (blockBones [some skelP, some skelQ]) ∧
      st.bones.length =
        (([0, 1] : List Int).map
          (fun idx => (blockBones [some skelP, some skelQ] idx).length)).sum ∧
      st.parents.length = st.bones.length ∧
      ∀ (pre : List Int) (idx : Int) (post : List Int) (sub : Skeleton),
        [0, 1] = pre ++ idx :: post →
        vecAt [some skelP, some skelQ] idx = some (some sub) →
        ∀ (j : Nat) (k : Int), sub.bone_ids[j]? = some k →
          st.bones[(pre.flatMap (blockBones [some skelP, some skelQ])).length + j]? =
            some (sub.bone k) ∧
          (sub.parentId k ≠ -1 →
            ∃ i, i < sub.bone_ids.length ∧ sub.idList[i]? = some (sub.parentId k) ∧
              st.parents[(pre.flatMap (blockBones [some skelP, some skelQ])).length + j]? =
                some (((pre.flatMap (blockBones [some skelP, some skelQ])).length + i : Nat)
                  : Int)) :=
  update_skeleton_blocks getHierarchyOrder hostPQ State.initial _ _ [0, 1]
    readSurfaces_hostPQ rfl getHierarchyOrder_PQ surfaceOk_PQ

/-- C1 (code at the failing input): on the surfaces `[A, B, C]` with
`surfaceParent = [none, 0, 1]` the merged parents are `[-1, 0, 1, 2]`: the
bone of B (position 2) is attached to position 1, the last bone appended for A,
and not to position 0, the first one. -/
theorem update_skeleton_attaches_to_last_bone :
    update_skeleton getHierarchyOrder hostABC State.initial =
      .ok (.kSuccess,
        { State.initial with
          lastImplicitBones := [some skelA, some skelB, some skelC],
          lastParents := [-1, 0, 1],
          rebuilds := 1,
          skeleton := some ⟨[⟨10, 10⟩, ⟨11, 11⟩, ⟨20, 20⟩, ⟨30, 30⟩], [-1, 0, 1, 2]⟩ }) := rfl

/-- C4 (code at the failing input): with a null skeleton and geometry left
from an earlier polygonization, `load_mesh_geometry` returns success without
touching the mesh, and `get_mesh_geometry` hands back the old triangle. -/
theorem load_mesh_geometry_null_keeps_stale_mesh
    (compute_surface : MeshGeom → BuiltSkeleton → MeshGeom) :
    load_mesh_geometry compute_surface .kSuccess staleState = (.kSuccess, staleState) ∧
      (get_mesh_geometry compute_surface .kSuccess staleState).1 = staleMesh ∧
      staleMesh.vertices.length = 3 ∧ staleMesh.triangles.length = 1 :=
  ⟨rfl, rfl, rfl, rfl⟩

/-- C5 (code at the failing input): on the surfaces `[A, null]` the acyclic
order `[0, 1]` is resolved and the pass for surface 1 dereferences the null
sub-skeleton: the call faults instead of merging the bones of A. -/
theorem update_skeleton_null_sub_skeleton_faults :
    getHierarchyOrder [-1, 0] = some [0, 1] ∧
      update_skeleton getHierarchyOrder hostNull State.initial = .error .nullDereference :=
  ⟨by decide, rfl⟩

/-- C6 (code at the failing input): a single element at logical index 1 with
parent `-1` makes the gathered vectors `[null, B]` and `[0, -1]`: the unset
index 0 holds parent 0 and not `-1`, the resolver sees surface 0 as its own
parent, and no skeleton is built. -/
theorem update_skeleton_sparse_gap_is_zero :
    readSurfaces hostSparse = .inputs [none, some skelB] [0, -1] ∧
      getHierarchyOrder [0, -1] = none ∧
      update_skeleton getHierarchyOrder hostSparse State.initial =
        .ok (.kSuccess,
          { State.initial with
            lastImplicitBones := [none, some skelB], lastParents := [0, -1] }) :=
  ⟨rfl, by decide, rfl⟩

end ImplicitBlend
